import Mathlib

/- Verification of the Fornjot B-rep kernel core: the boolean union decision
logic, the object-graph traversal, the triangulation driver, the
signed-distance difference operation, and the graphics mesh builder.
Each embedded definition mirrors one item of the Rust source; places where
the deciding Rust code is outside the provided sources are modelled from the
specification and marked as such in their doc comments. -/

/- ============================================================ -/
/- Part 1: definitions                                          -/
/- ============================================================ -/

namespace BoolUnion

/-- Modelled from the spec: surfaces are opaque to union (section 4.7 only
consults them through surface_surface); the objects module is not among the
provided sources, so a surface is an identifier. -/
abbrev SurfaceId := Nat

/-- Modelled from the spec: intersection curves are opaque to the union
decision logic (section 4.7); a curve is an identifier. -/
abbrev CurveId := Nat

/-- Modelled from the spec: a face carries a surface and a boundary; union
reads only the surface and passes the whole face to the interval computation
(section 4.7), so the boundary is an opaque identifier. Equality is
structural (section 3). -/
structure Face where
  surface : SurfaceId
  boundary : Nat
deriving DecidableEq, Repr

/-- Modelled from the spec, section 4.6: a sorted, non-overlapping list of
intervals in curve-local coordinates. Union consults only emptiness. -/
structure CurveFaceIntersectionList where
  intervals : List (Int × Int)
deriving DecidableEq, Repr

/-- Mirrors CurveFaceIntersectionList::is_empty. -/
def CurveFaceIntersectionList.is_empty (l : CurveFaceIntersectionList) : Bool :=
  l.intervals.isEmpty

/-- Modelled from the spec, section 4.6: the geometric collaborators of the
union algorithm. surface_surface returns the intersection curve of two
surfaces in the local frame of each plus the shared global curve, or none
when the surfaces do not intersect; compute walks a face boundary and
returns the interval list of the curve against the face. The files defining
them (algorithms/intersection) are not among the provided sources. -/
structure Geometry where
  surface_surface : SurfaceId → SurfaceId → Option (CurveId × CurveId × CurveId)
  compute : CurveId → Face → CurveFaceIntersectionList

/-- Insertion into the result face set; mirrors BTreeSet::insert observed
through iteration: the set is kept duplicate-free. -/
def insertFace (faces : List Face) (f : Face) : List Face :=
  if f ∈ faces then faces else faces ++ [f]

/-- The body of the double loop of union (union.rs lines 20 to 82) for one
face pair: compute the surface intersection curve; on none, continue;
otherwise branch on emptiness of the two interval lists exactly as the
match at lines 40 to 55 does. The todo branch, which panics in the source,
is modelled as none. The remainder of the loop body builds edges that are
bound to unused variables and do not influence the result, so it is not
reproduced. -/
def processPair (g : Geometry) (faces : List Face) (fa fb : Face) :
    Option (List Face) :=
  match g.surface_surface fa.surface fb.surface with
  | none => some faces
  | some (curve_a, curve_b, _curve) =>
    match (g.compute curve_a fa).is_empty, (g.compute curve_b fb).is_empty with
    | false, true => some (insertFace faces fa)
    | true, false => some (insertFace faces fb)
    | true, true => some (insertFace (insertFace faces fa) fb)
    | false, false => none

/-- The inner loop of union over the faces of the second solid. -/
def unionInner (g : Geometry) (fa : Face) (b : List Face)
    (faces : List Face) : Option (List Face) :=
  match b with
  | [] => some faces
  | fb :: rest =>
    match processPair g faces fa fb with
    | none => none
    | some faces2 => unionInner g fa rest faces2

/-- The outer loop of union over the faces of the first solid. -/
def unionOuter (g : Geometry) (a b : List Face)
    (faces : List Face) : Option (List Face) :=
  match a with
  | [] => some faces
  | fa :: rest =>
    match unionInner g fa b faces with
    | none => none
    | some faces2 => unionOuter g rest b faces2

/-- Mirrors union (union.rs lines 13 to 85): a solid is its face set,
modelled as the duplicate-free iteration sequence of the BTreeSet; the
result is Solid::from_faces of the accumulated set, which is the
accumulated set itself. none models the todo panic. -/
def union (g : Geometry) (a b : List Face) : Option (List Face) :=
  unionOuter g a b []

/-- Whether a face pair has a surface intersection curve. -/
def hasCurve (g : Geometry) (fa fb : Face) : Bool :=
  (g.surface_surface fa.surface fb.surface).isSome

/-- A face pair is non-interacting when its surfaces share no intersection
curve or both interval lists against that curve are empty (spec section
4.7, first table row and the no-curve case). -/
def nonInteractingB (g : Geometry) (fa fb : Face) : Bool :=
  match g.surface_surface fa.surface fb.surface with
  | none => true
  | some (ca, cb, _) => (g.compute ca fa).is_empty && (g.compute cb fb).is_empty

/-- A face pair is symmetric-crossing when both interval lists against the
intersection curve are non-empty (the unresolved table row of section 4.7). -/
def crossingB (g : Geometry) (fa fb : Face) : Bool :=
  match g.surface_surface fa.surface fb.surface with
  | none => false
  | some (ca, cb, _) =>
    !(g.compute ca fa).is_empty && !(g.compute cb fb).is_empty

/-- Concrete geometry: every surface pair intersects, every interval list is
empty. -/
def gEmpty : Geometry :=
  { surface_surface := fun _ _ => some (0, 0, 0)
    compute := fun _ _ => ⟨[]⟩ }

/-- Concrete geometry: every surface pair intersects, every interval list is
non-empty. -/
def gCross : Geometry :=
  { surface_surface := fun _ _ => some (0, 0, 0)
    compute := fun _ _ => ⟨[(0, 1)]⟩ }

/-- Concrete geometry: distinct surfaces intersect, equal surfaces do not;
every interval list is empty. -/
def gMixed : Geometry :=
  { surface_surface := fun s1 s2 => if s1 = s2 then none else some (0, 0, 0)
    compute := fun _ _ => ⟨[]⟩ }

/-- Concrete geometry: every surface pair intersects; the interval list is
non-empty exactly for faces with boundary 0. -/
def gOneSided : Geometry :=
  { surface_surface := fun _ _ => some (0, 0, 0)
    compute := fun _ f => if f.boundary = 0 then ⟨[(0, 1)]⟩ else ⟨[]⟩ }

/-- Concrete solid with two faces on distinct surfaces. -/
def solidA : List Face := [⟨0, 0⟩, ⟨1, 0⟩]

/-- Concrete solid with two faces on the same two surfaces as solidA but
with distinct boundaries. -/
def solidB : List Face := [⟨0, 1⟩, ⟨1, 1⟩]

/-- Concrete geometry of two geometrically disjoint cubes whose faces are
nonetheless crossed by a surface-intersection line: a unit cube at the
origin (surfaces 0 to 5, with 5 the top face in the plane z = 1/2) and a
unit cube centered at (10,0,0) rotated 45 degrees about the x axis
(surfaces 10 to 15, with 12 the tilted face in the plane y + z equal to
half the square root of two). The two x-normal surfaces of each cube (0,1
and 10,11) are parallel to each other, so those cross pairs have no
intersection curve. Every other cross pair has a curve, encoded as
100 * s + t. The planes of surfaces 5 and 12 meet in the line z = 1/2,
y = (sqrt 2 - 1)/2, which passes through the interior of both bounded
faces (for x between -1/2 and 1/2 on the first and between 9.5 and 10.5 on
the second), so for the curve of that pair (id 512) both interval lists
are non-empty; the curves of all other pairs pass far from both bounded
faces, so their interval lists are empty. -/
def gDisjointRotated : Geometry :=
  { surface_surface := fun s t =>
      if s < 2 ∧ t < 12 then none
      else some (100 * s + t, 100 * s + t, 100 * s + t)
    compute := fun c _ => if c = 512 then ⟨[(0, 1)]⟩ else ⟨[]⟩ }

/-- The six faces of the axis-aligned unit cube of gDisjointRotated. -/
def cubeA : List Face :=
  [⟨0, 0⟩, ⟨1, 0⟩, ⟨2, 0⟩, ⟨3, 0⟩, ⟨4, 0⟩, ⟨5, 0⟩]

/-- The six faces of the distant rotated unit cube of gDisjointRotated. -/
def cubeB : List Face :=
  [⟨10, 1⟩, ⟨11, 1⟩, ⟨12, 1⟩, ⟨13, 1⟩, ⟨14, 1⟩, ⟨15, 1⟩]

end BoolUnion

namespace ObjGraph

/-- Exact rational scalar in canonical form (reduced, positive
denominator). The source stores double precision values and compares them
exactly; every coordinate of the traversal scenario is an exact dyadic
value, so a canonical fraction models that equality faithfully while
staying kernel-computable. -/
structure Q where
  num : Int
  den : Int
deriving DecidableEq, Repr

/-- Canonical form of the fraction n over d. -/
def Q.norm (n d : Int) : Q :=
  let s : Int := if d < 0 then -1 else 1
  let n2 := s * n
  let d2 := s * d
  let g : Int := Int.gcd n2 d2
  if g = 0 then ⟨0, 1⟩ else ⟨n2 / g, d2 / g⟩

def Q.add (a b : Q) : Q := Q.norm (a.num * b.den + b.num * a.den) (a.den * b.den)

def Q.sub (a b : Q) : Q := Q.norm (a.num * b.den - b.num * a.den) (a.den * b.den)

def Q.mul (a b : Q) : Q := Q.norm (a.num * b.num) (a.den * b.den)

def Q.div (a b : Q) : Q := Q.norm (a.num * b.den) (a.den * b.num)

def Q.neg (a : Q) : Q := ⟨-a.num, a.den⟩

instance : Add Q := ⟨Q.add⟩

instance : Sub Q := ⟨Q.sub⟩

instance : Mul Q := ⟨Q.mul⟩

instance : Div Q := ⟨Q.div⟩

instance : Neg Q := ⟨Q.neg⟩

instance : OfNat Q n := ⟨⟨n, 1⟩⟩

/-- Surface-local 2D point. -/
abbrev P2 := Q × Q

/-- Global 3D point. -/
abbrev P3 := Q × Q × Q

def vadd (p q : P3) : P3 := (p.1 + q.1, p.2.1 + q.2.1, p.2.2 + q.2.2)

def smul (a : Q) (p : P3) : P3 := (a * p.1, a * p.2.1, a * p.2.2)

def sub2 (p q : P2) : P2 := (p.1 - q.1, p.2 - q.2)

/-- Modelled from the spec, section 3: a curve in 2D surface coordinates,
here a line with origin and direction (the objects module is not among the
provided sources). -/
structure Curve2 where
  origin : P2
  direction : P2
deriving DecidableEq, Repr

/-- Modelled from the spec, section 3: a curve in global 3D coordinates,
here a line with origin and direction. This is the object kind that
curve_iter visits. -/
structure Curve3 where
  origin : P3
  direction : P3
deriving DecidableEq, Repr

/-- Modelled from the spec, section 3: a Local carrying the surface-local
curve together with its canonical global form. -/
structure LocalCurve where
  local2 : Curve2
  global : Curve3
deriving DecidableEq, Repr

/-- Modelled from the spec, section 3: a plane surface with an origin and
two basis directions, exposing the point mapping from surface coordinates. -/
structure Surface where
  origin : P3
  u : P3
  v : P3
deriving DecidableEq, Repr

def Surface.point_from_surface_coords (s : Surface) (p : P2) : P3 :=
  vadd s.origin (vadd (smul p.1 s.u) (smul p.2 s.v))

def Surface.vector_from_surface_coords (s : Surface) (w : P2) : P3 :=
  vadd (smul w.1 s.u) (smul w.2 s.v)

def Surface.translate (s : Surface) (w : P3) : Surface :=
  ⟨vadd s.origin w, s.u, s.v⟩

/-- Modelled from the spec, section 3: a single 3D position, compared by
position. -/
structure GlobalVertex where
  position : P3
deriving DecidableEq, Repr

/-- Modelled from the spec, section 3: a point on a curve given by its
curve-local 1D coordinate plus its global form. -/
structure Vertex where
  position : Q
  global : GlobalVertex
deriving DecidableEq, Repr

/-- Modelled from the spec, section 3: exactly two vertices bounding an
edge, or none for an edge on a closed curve. -/
def VerticesOfEdge := Option (Vertex × Vertex)
deriving DecidableEq, Repr

def verticesToList : VerticesOfEdge → List Vertex
  | none => []
  | some (a, b) => [a, b]

/-- Modelled from the spec, section 3: a Local curve plus its bounding
vertices. -/
structure Edge where
  curve : LocalCurve
  vertices : VerticesOfEdge
deriving DecidableEq, Repr

/-- Modelled from the spec, section 3: an ordered closed sequence of edges. -/
structure Cycle where
  edges : List Edge
deriving DecidableEq, Repr

/-- A triangle of global points, the payload of pre-triangulated faces. -/
abbrev Tri3 := P3 × P3 × P3

/-- Modelled from the spec, section 3: a face is either a B-rep face with a
surface, one exterior cycle, interior cycles and a color, or a
pre-triangulated face carrying raw triangles with color. -/
inductive Face where
  | brep (surface : Surface) (exterior : Cycle) (interiors : List Cycle)
      (color : Nat)
  | triangles (ts : List (Tri3 × Nat))
deriving DecidableEq, Repr

/-- Mirrors Face::all_cycles: the exterior cycle followed by the interiors;
empty for a pre-triangulated face. -/
def Face.all_cycles : Face → List Cycle
  | .brep _ exterior interiors _ => exterior :: interiors
  | .triangles _ => []

/-- Modelled from the spec, section 3: an unordered set of planar faces. -/
structure Sketch where
  faces : List Face
deriving DecidableEq, Repr

/-- Modelled from the spec, section 3: a deduplicated set of faces forming
a closed volume. -/
structure Solid where
  faces : List Face
deriving DecidableEq, Repr

/-- The closed enumeration of object kinds the traversal dispatches over. -/
inductive Kind where
  | curve
  | cycle
  | edge
  | face
  | globalVertex
  | sketch
  | solid
  | surface
  | vertex
deriving DecidableEq, Repr

/-- A node of the heterogeneous object graph; stands for the dyn
ObjectIters references of iter.rs. -/
inductive Object where
  | curve (c : Curve3)
  | cycle (c : Cycle)
  | edge (e : Edge)
  | face (f : Face)
  | globalVertex (v : GlobalVertex)
  | sketch (s : Sketch)
  | solid (s : Solid)
  | surface (s : Surface)
  | vertex (v : Vertex)
deriving DecidableEq, Repr

def Object.kind : Object → Kind
  | .curve _ => .curve
  | .cycle _ => .cycle
  | .edge _ => .edge
  | .face _ => .face
  | .globalVertex _ => .globalVertex
  | .sketch _ => .sketch
  | .solid _ => .solid
  | .surface _ => .surface
  | .vertex _ => .vertex

/-- Mirrors Iter::with (iter.rs lines 275 to 287): push each element of the
second sequence that the accumulated sequence does not already contain. -/
def iterWith (acc other : List Object) : List Object :=
  other.foldl (fun a x => if x ∈ a then a else a ++ [x]) acc

/-- Mirrors the default trait methods of ObjectIters: start from the empty
iterator and fold Iter::with over the results for the referenced objects. -/
def iterConcat (ls : List (List Object)) : List Object :=
  ls.foldl iterWith []

/-- Kind iterator of Curve (iter.rs lines 117 to 125): the override for its
own kind yields itself; every other kind uses the default walk over no
referenced objects. -/
def iterCurve (k : Kind) (c : Curve3) : List Object :=
  if k = .curve then [.curve c] else iterConcat []

/-- Kind iterator of GlobalVertex (iter.rs lines 179 to 187). -/
def iterGlobalVertex (k : Kind) (v : GlobalVertex) : List Object :=
  if k = .globalVertex then [.globalVertex v] else iterConcat []

/-- Kind iterator of Surface (iter.rs lines 221 to 229). -/
def iterSurface (k : Kind) (s : Surface) : List Object :=
  if k = .surface then [.surface s] else iterConcat []

/-- Kind iterator of Vertex (iter.rs lines 231 to 239): references its
global form. -/
def iterVertex (k : Kind) (v : Vertex) : List Object :=
  if k = .vertex then [.vertex v] else iterConcat [iterGlobalVertex k v.global]

/-- Kind iterator of Edge (iter.rs lines 143 to 157): references the global
form of its curve and its vertices. -/
def iterEdge (k : Kind) (e : Edge) : List Object :=
  if k = .edge then [.edge e]
  else iterConcat
    (iterCurve k e.curve.global :: (verticesToList e.vertices).map (iterVertex k))

/-- Kind iterator of Cycle (iter.rs lines 127 to 141): references its
edges. -/
def iterCycle (k : Kind) (c : Cycle) : List Object :=
  if k = .cycle then [.cycle c] else iterConcat (c.edges.map (iterEdge k))

/-- Kind iterator of Face (iter.rs lines 159 to 177): a pre-triangulated
face references nothing; a B-rep face references its surface and all of its
cycles. -/
def iterFace (k : Kind) (f : Face) : List Object :=
  if k = .face then [.face f]
  else
    match f with
    | .triangles _ => iterConcat []
    | .brep s exterior interiors _ =>
      iterConcat (iterSurface k s :: (exterior :: interiors).map (iterCycle k))

/-- Kind iterator of Sketch (iter.rs lines 189 to 203): references its
faces. -/
def iterSketch (k : Kind) (s : Sketch) : List Object :=
  if k = .sketch then [.sketch s] else iterConcat (s.faces.map (iterFace k))

/-- Kind iterator of Solid (iter.rs lines 205 to 219): references its
faces. -/
def iterSolid (k : Kind) (s : Solid) : List Object :=
  if k = .solid then [.solid s] else iterConcat (s.faces.map (iterFace k))

/-- Kind iterator dispatch over a graph node, covering all nine impl blocks
of iter.rs. -/
def Object.iter (k : Kind) : Object → List Object
  | .curve c => iterCurve k c
  | .cycle c => iterCycle k c
  | .edge e => iterEdge k e
  | .face f => iterFace k f
  | .globalVertex v => iterGlobalVertex k v
  | .sketch s => iterSketch k s
  | .solid s => iterSolid k s
  | .surface s => iterSurface k s
  | .vertex v => iterVertex k v

/-- All objects reachable from a curve through direct references, the node
itself included, with multiplicity. -/
def reachCurve (c : Curve3) : List Object := [.curve c]

def reachGlobalVertex (v : GlobalVertex) : List Object := [.globalVertex v]

def reachSurface (s : Surface) : List Object := [.surface s]

def reachVertex (v : Vertex) : List Object :=
  .vertex v :: reachGlobalVertex v.global

def reachEdge (e : Edge) : List Object :=
  .edge e :: (reachCurve e.curve.global ++
    ((verticesToList e.vertices).map reachVertex).flatten)

def reachCycle (c : Cycle) : List Object :=
  .cycle c :: (c.edges.map reachEdge).flatten

def reachFace (f : Face) : List Object :=
  .face f ::
    match f with
    | .triangles _ => []
    | .brep s exterior interiors _ =>
      reachSurface s ++ ((exterior :: interiors).map reachCycle).flatten

def reachSketch (s : Sketch) : List Object :=
  .sketch s :: (s.faces.map reachFace).flatten

def reachSolid (s : Solid) : List Object :=
  .solid s :: (s.faces.map reachFace).flatten

/-- All objects reachable from a graph node through the direct references
declared in iter.rs, the node itself included. -/
def Object.reach : Object → List Object
  | .curve c => reachCurve c
  | .cycle c => reachCycle c
  | .edge e => reachEdge e
  | .face f => reachFace f
  | .globalVertex v => reachGlobalVertex v
  | .sketch s => reachSketch s
  | .solid s => reachSolid s
  | .surface s => reachSurface s
  | .vertex v => reachVertex v

/-- Mirrors Edge::line_segment_from_points: the curve is the line from the
first point towards the second in surface coordinates, paired with its
global form; the vertices sit at curve coordinates 0 and 1. -/
def line_segment_from_points (s : Surface) (a b : P2) : Edge :=
  { curve :=
      { local2 := ⟨a, sub2 b a⟩
        global :=
          ⟨s.point_from_surface_coords a,
            s.vector_from_surface_coords (sub2 b a)⟩ }
    vertices :=
      some
        (⟨0, ⟨s.point_from_surface_coords a⟩⟩,
          ⟨1, ⟨s.point_from_surface_coords b⟩⟩) }

/-- Mirrors Cycle::polygon_from_points: one line segment per consecutive
point pair, the last point connecting back to the first. -/
def polygon_from_points (s : Surface) (pts : List P2) : Cycle :=
  ⟨(pts.zip (pts.rotate 1)).map fun pr =>
    line_segment_from_points s pr.1 pr.2⟩

def xy_plane : Surface := ⟨(0, 0, 0), (1, 0, 0), (0, 1, 0)⟩

def xz_plane : Surface := ⟨(0, 0, 0), (1, 0, 0), (0, 0, 1)⟩

def yz_plane : Surface := ⟨(0, 0, 0), (0, 1, 0), (0, 0, 1)⟩

/-- Modelled from the spec, sections 3 and 8: the unit cube solid used by
the traversal scenario. Six plane surfaces, each carrying the same square
exterior polygon in its own surface coordinates; the construction follows
the bottom-up lifecycle of section 3 (Surface to Edge to Cycle to Face to
Solid). Solid::cube_from_edge_length itself is not among the provided
sources. -/
def cube_from_edge_length (l : Q) : Solid :=
  let el := l / 2
  let pts : List P2 := [(-el, -el), (el, -el), (el, el), (-el, el)]
  let planes : List Surface :=
    [xy_plane.translate (0, 0, -el), xy_plane.translate (0, 0, el),
      xz_plane.translate (0, -el, 0), xz_plane.translate (0, el, 0),
      yz_plane.translate (-el, 0, 0), yz_plane.translate (el, 0, 0)]
  ⟨planes.map fun s => Face.brep s (polygon_from_points s pts) [] 0⟩

end ObjGraph

namespace Tria

/-- Surface-local 2D point. Geometric scalars are modelled as rationals:
the claims about the triangulation driver concern order comparisons and
set membership, which the rationals model exactly. -/
abbrev P2 := ℚ × ℚ

/-- Global 3D point. -/
abbrev P3 := ℚ × ℚ × ℚ

/-- A Local point: surface-local 2D coordinates paired with the canonical
global 3D form (spec section 3). -/
abbrev LP2 := P2 × P3

/-- A triangle in surface-local coordinates. -/
abbrev Tri2 := P2 × P2 × P2

/-- A triangle of Local points, as produced by the Delaunay step of the
driver. -/
abbrev LTri := LP2 × LP2 × LP2

/-- The local-coordinate triangle of a triangle of Local points; mirrors
triangle.map of point.local in the driver. -/
def LTri.locals (t : LTri) : Tri2 := (t.1.1, t.2.1.1, t.2.2.1)

/-- The canonical-coordinate triangle of a triangle of Local points;
mirrors triangle.map of point.canonical in the driver. -/
def LTri.canonicals (t : LTri) : P3 × P3 × P3 := (t.1.2, t.2.1.2, t.2.2.2)

/-- Twice the signed area of the triangle o a b. -/
def cross2 (o a b : P2) : ℚ :=
  (a.1 - o.1) * (b.2 - o.2) - (a.2 - o.2) * (b.1 - o.1)

/-- Strict interior of a triangle: the point lies strictly on the same side
of all three edges. -/
def triContains (t : Tri2) (p : P2) : Prop :=
  (0 < cross2 t.1 t.2.1 p ∧ 0 < cross2 t.2.1 t.2.2 p ∧ 0 < cross2 t.2.2 t.1 p) ∨
  (cross2 t.1 t.2.1 p < 0 ∧ cross2 t.2.1 t.2.2 p < 0 ∧ cross2 t.2.2 t.1 p < 0)

/-- The edges of a closed polygon: consecutive point pairs, the last point
connecting back to the first. -/
def edgesOf (poly : List P2) : List (P2 × P2) :=
  poly.zip (poly.drop 1 ++ poly.take 1)

/-- Whether the horizontal ray from p towards positive x crosses the edge. -/
def raycastHit (p : P2) (e : P2 × P2) : Bool :=
  (decide (p.2 < e.1.2) != decide (p.2 < e.2.2)) &&
    decide (p.1 < e.1.1 + (p.2 - e.1.2) * (e.2.1 - e.1.1) / (e.2.2 - e.1.2))

/-- Modelled from the spec, section 4.4: the standard even-odd ray-casting
point-in-polygon rule. -/
def insidePolygon (p : P2) (poly : List P2) : Bool :=
  decide (((edgesOf poly).filter (raycastHit p)).length % 2 = 1)

/-- Modelled from the spec, section 4.4, contract sentence: the containment
filter accepts a triangle only if its interior is entirely inside the
exterior polygon and entirely outside every interior polygon. The file
implementing Polygon::contains_triangle is not among the provided sources. -/
def containsTriangleSpec (exterior : List P2) (interiors : List (List P2))
    (t : Tri2) : Prop :=
  (∀ p, triContains t p → insidePolygon p exterior = true) ∧
  (∀ hole ∈ interiors, ∀ p, triContains t p → insidePolygon p hole = false)

/-- Modelled from the spec, section 4.2: the output of FaceApprox for one
face, as canonical 3D points of the boundary polylines (FaceApprox itself
is not among the provided sources). -/
structure FaceApprox where
  points : List P3
  exterior : List P3
  interiors : List (List P3)

/-- The exterior polygon of the face in surface-local coordinates, as the
driver computes it from the approximation. -/
def faceExterior (point_to_surface_coords : P3 → LP2)
    (approx : FaceApprox) : List P2 :=
  approx.exterior.map fun q => (point_to_surface_coords q).1

/-- The interior polygons of the face in surface-local coordinates, as the
driver computes them from the approximation. -/
def faceInteriors (point_to_surface_coords : P3 → LP2)
    (approx : FaceApprox) : List (List P2) :=
  approx.interiors.map fun hole => hole.map fun q =>
    (point_to_surface_coords q).1

/-- Mirrors the B-rep branch of triangulate (triangulation/mod.rs lines 25
to 73): project the approximation points into surface coordinates, build
the face polygon from the exterior and interior boundaries, Delaunay
triangulate the points, and retain exactly the triangles the containment
filter accepts. Collaborators whose files are not among the provided
sources (surface projection, delaunay::triangulate, the containment
filter) are passed as functions. -/
def triangulateFace (point_to_surface_coords : P3 → LP2)
    (delaunay : List LP2 → List LTri)
    (contains_triangle : List P2 → List (List P2) → Tri2 → Bool)
    (approx : FaceApprox) : List LTri :=
  let points := approx.points.map point_to_surface_coords
  let tris := delaunay points
  tris.filter fun t =>
    contains_triangle (faceExterior point_to_surface_coords approx)
      (faceInteriors point_to_surface_coords approx) (LTri.locals t)

/-- A face as the driver sees it: a B-rep face with its surface projection,
boundary approximation and color, or a pre-triangulated face carrying raw
triangles with color. -/
inductive TFace where
  | brep (point_to_surface_coords : P3 → LP2) (approx : FaceApprox)
      (color : Nat)
  | triangles (ts : List ((P3 × P3 × P3) × Nat))

/-- Mirrors triangulate (triangulation/mod.rs lines 15 to 83): accumulate
per face; accepted triangles of a B-rep face are mapped back to canonical
coordinates and tagged with the face color; pre-triangulated faces are
copied directly. -/
def triangulate (delaunay : List LP2 → List LTri)
    (contains_triangle : List P2 → List (List P2) → Tri2 → Bool)
    (shape : List TFace) : List ((P3 × P3 × P3) × Nat) :=
  shape.foldl
    (fun mesh f =>
      match f with
      | .brep toSurf approx color =>
        mesh ++
          (triangulateFace toSurf delaunay contains_triangle approx).map
            fun t => (LTri.canonicals t, color)
      | .triangles ts => mesh ++ ts)
    []

/-- Concrete square exterior polygon for the witness scenario. -/
def ext0 : List P2 := [(0, 0), (4, 0), (4, 4), (0, 4)]

/-- Concrete square hole for the witness scenario. -/
def hole0 : List P2 := [(2, 2), (3, 2), (3, 3), (2, 3)]

/-- Concrete triangle, disjoint from the hole, for the witness scenario. -/
def t0 : Tri2 := ((0, 0), (1, 0), (0, 1))

/-- The witness triangle as a triangle of Local points in the xy plane. -/
def t0L : LTri :=
  (((0, 0), (0, 0, 0)), ((1, 0), (1, 0, 0)), ((0, 1), (0, 1, 0)))

/-- Projection into the xy plane for the witness scenario. -/
def toSurf0 : P3 → LP2 := fun q => ((q.1, q.2.1), q)

/-- Witness approximation: the square exterior and the square hole lifted
into the xy plane. -/
def approx0 : FaceApprox :=
  { points := []
    exterior := ext0.map fun q => (q.1, q.2, 0)
    interiors := [hole0.map fun q => (q.1, q.2, 0)] }

/-- Witness containment filter: accepts exactly the witness triangle. -/
def containsFn0 : List P2 → List (List P2) → Tri2 → Bool :=
  fun _ _ tri => decide (tri = t0)

/-- Witness Delaunay step: returns the witness triangle. -/
def delaunay0 : List LP2 → List LTri := fun _ => [t0L]

end Tria

namespace Sdf

/-- 3D point for the signed-distance geometry; the source uses f32, whose
negation and order comparison are exact, so rationals model the claim
faithfully. -/
abbrev P3 := ℚ × ℚ × ℚ

/-- Mirrors Difference (fj/src/geometry/operations/difference.rs lines 8 to
11): the difference of shape a minus shape b. -/
structure Difference (A B : Type) where
  a : A
  b : B

/-- Mirrors the Surface impl for Difference (difference.rs lines 26 to 43):
the signed distance of the difference at a point, given the signed distance
functions of the two component shapes. -/
def differenceSurface {A B : Type} (sa : A → P3 → ℚ) (sb : B → P3 → ℚ)
    (d : Difference A B) (point : P3) : ℚ :=
  let dist_a := sa d.a point
  let dist_b := sb d.b point
  if dist_a > -dist_b then dist_a else -dist_b

end Sdf

namespace Gfx

/-- Mirrors MeshMaker as used by the graphics mesh (its file src/mesh.rs is
not among the provided sources): modelled from the spec principle of
structural deduplication (section 9) as the canonical deduplicating vertex
accumulator the From impl relies on: pushing a vertex first looks it up,
reuses its index when present, and otherwise appends it and records the
fresh index. -/
structure MeshMaker (V : Type) where
  vertices : List V
  indices : List Nat

/-- Index lookup by structural equality. -/
def findIndex {V : Type} [DecidableEq V] (l : List V) (v : V) : Option Nat :=
  match l with
  | [] => none
  | x :: rest =>
    if x = v then some 0 else (findIndex rest v).map (· + 1)

/-- Modelled from the spec (see MeshMaker): push one vertex. -/
def MeshMaker.push {V : Type} [DecidableEq V] (m : MeshMaker V) (v : V) :
    MeshMaker V :=
  match findIndex m.vertices v with
  | some i => { m with indices := m.indices ++ [i] }
  | none =>
    { vertices := m.vertices ++ [v]
      indices := m.indices ++ [m.vertices.length] }

/-- Mirrors the From impl for Mesh (src/graphics/mesh.rs lines 31 to 64):
for each triangle, compute its normal and push the three vertices paired
with that normal. The vertex type and the normal computation (f32 cross
product and normalization) are abstract: the claim depends only on the
push discipline. -/
def meshMakerFromTriangles {V : Type} [DecidableEq V]
    (normalOf : V × V × V → V) (triangles : List (V × V × V)) :
    MeshMaker (V × V) :=
  triangles.foldl
    (fun m t =>
      (((m.push (t.1, normalOf t)).push (t.2.1, normalOf t)).push
        (t.2.2, normalOf t)))
    ⟨[], []⟩

/-- A graphics vertex: position and normal (the color is a constant in the
source and carries no information). -/
structure GVertex (V : Type) where
  position : V
  normal : V
deriving DecidableEq

/-- The graphics mesh: vertex buffer and index buffer. -/
structure Mesh (V : Type) where
  vertices : List (GVertex V)
  indices : List Nat

/-- Mirrors From of Vec of Triangle for Mesh: run the MeshMaker over the
triangles, then map its vertices into graphics vertices and collect its
indices. -/
def meshFromTriangles {V : Type} [DecidableEq V]
    (normalOf : V × V × V → V) (triangles : List (V × V × V)) : Mesh V :=
  let m := meshMakerFromTriangles normalOf triangles
  { vertices := m.vertices.map fun pr => ⟨pr.1, pr.2⟩
    indices := m.indices }

end Gfx

/- ============================================================ -/
/- Part 2: theorems                                             -/
/- ============================================================ -/

namespace BoolUnion

theorem mem_insertFace {s : List Face} {f x : Face} :
    x ∈ insertFace s f ↔ x ∈ s ∨ x = f := by
  unfold insertFace
  split_ifs with h
  · constructor
    · exact Or.inl
    · rintro (hx | rfl)
      · exact hx
      · exact h
  · simp [List.mem_append]

theorem processPair_crossing {g : Geometry} {fa fb : Face}
    {ca cb c : CurveId}
    (h : g.surface_surface fa.surface fb.surface = some (ca, cb, c))
    (hia : (g.compute ca fa).is_empty = false)
    (hib : (g.compute cb fb).is_empty = false) :
    ∀ s, processPair g s fa fb = none := by
  intro s
  simp only [processPair, h, hia, hib]

theorem unionInner_none {g : Geometry} {fa : Face} {b : List Face}
    (fb : Face) (hfb : fb ∈ b)
    (hn : ∀ s, processPair g s fa fb = none) :
    ∀ s, unionInner g fa b s = none := by
  induction b with
  | nil => cases hfb
  | cons hd tl ih =>
    intro s
    simp only [unionInner]
    rcases List.mem_cons.mp hfb with rfl | htl
    · rw [hn s]
    · rcases hpp : processPair g s fa hd with _ | s2
      · rfl
      · exact ih htl s2

theorem unionOuter_none {g : Geometry} {a b : List Face}
    (fa : Face) (hfa : fa ∈ a)
    (hn : ∀ s, unionInner g fa b s = none) :
    ∀ s, unionOuter g a b s = none := by
  induction a with
  | nil => cases hfa
  | cons hd tl ih =>
    intro s
    simp only [unionOuter]
    rcases List.mem_cons.mp hfa with rfl | htl
    · rw [hn s]
    · rcases hin : unionInner g hd b s with _ | s2
      · rfl
      · exact ih htl s2

theorem processPair_not_crossing {g : Geometry} {fa fb : Face}
    (h : crossingB g fa fb = false) :
    ∀ s, ∃ s2, processPair g s fa fb = some s2 := by
  intro s
  cases hss : g.surface_surface fa.surface fb.surface with
  | none => exact ⟨s, by simp only [processPair, hss]⟩
  | some t =>
    obtain ⟨ca, cb, c⟩ := t
    have hb : (!(g.compute ca fa).is_empty && !(g.compute cb fb).is_empty)
        = false := by
      simpa only [crossingB, hss] using h
    cases h1 : (g.compute ca fa).is_empty with
    | false =>
      cases h2 : (g.compute cb fb).is_empty with
      | false => rw [h1, h2] at hb; simp at hb
      | true =>
        exact ⟨insertFace s fa, by simp only [processPair, hss, h1, h2]⟩
    | true =>
      cases h2 : (g.compute cb fb).is_empty with
      | false =>
        exact ⟨insertFace s fb, by simp only [processPair, hss, h1, h2]⟩
      | true =>
        exact ⟨insertFace (insertFace s fa) fb,
          by simp only [processPair, hss, h1, h2]⟩

theorem unionInner_total {g : Geometry} {fa : Face} {b : List Face}
    (h : ∀ fb ∈ b, crossingB g fa fb = false) :
    ∀ s, ∃ s2, unionInner g fa b s = some s2 := by
  induction b with
  | nil => exact fun s => ⟨s, rfl⟩
  | cons hd tl ih =>
    intro s
    obtain ⟨s1, hs1⟩ :=
      processPair_not_crossing (h hd (List.mem_cons_self hd tl)) s
    obtain ⟨s2, hs2⟩ := ih (fun fb hfb => h fb (List.mem_cons_of_mem hd hfb)) s1
    refine ⟨s2, ?_⟩
    simp only [unionInner]
    rw [hs1]
    exact hs2

theorem unionOuter_total {g : Geometry} {a b : List Face}
    (h : ∀ fa ∈ a, ∀ fb ∈ b, crossingB g fa fb = false) :
    ∀ s, ∃ s2, unionOuter g a b s = some s2 := by
  induction a with
  | nil => exact fun s => ⟨s, rfl⟩
  | cons hd tl ih =>
    intro s
    obtain ⟨s1, hs1⟩ := unionInner_total (h hd (List.mem_cons_self hd tl)) s
    obtain ⟨s2, hs2⟩ := ih (fun fa hfa => h fa (List.mem_cons_of_mem hd hfa)) s1
    refine ⟨s2, ?_⟩
    simp only [unionOuter]
    rw [hs1]
    exact hs2

theorem processPair_nonInteracting {g : Geometry} {fa fb : Face}
    (h : nonInteractingB g fa fb = true) :
    ∀ s, processPair g s fa fb =
      some (if hasCurve g fa fb then insertFace (insertFace s fa) fb else s) := by
  intro s
  cases hss : g.surface_surface fa.surface fb.surface with
  | none => simp [processPair, hasCurve, hss]
  | some t =>
    obtain ⟨ca, cb, c⟩ := t
    have h12 : (g.compute ca fa).is_empty = true ∧
        (g.compute cb fb).is_empty = true := by
      simpa only [nonInteractingB, hss, Bool.and_eq_true] using h
    simp [processPair, hasCurve, hss, h12.1, h12.2]

theorem mem_ite_insert {g : Geometry} {s : List Face} {fa fb x : Face} :
    (x ∈ if hasCurve g fa fb then insertFace (insertFace s fa) fb else s) ↔
      x ∈ s ∨ (hasCurve g fa fb = true ∧ (x = fa ∨ x = fb)) := by
  cases hc : hasCurve g fa fb
  · simp [mem_insertFace]
  · simp [mem_insertFace]
    tauto

theorem unionInner_nonInteracting {g : Geometry} {fa : Face} {b : List Face}
    (h : ∀ fb ∈ b, nonInteractingB g fa fb = true) :
    ∀ s, ∃ s2, unionInner g fa b s = some s2 ∧
      ∀ x, x ∈ s2 ↔ x ∈ s ∨
        ∃ fb ∈ b, hasCurve g fa fb = true ∧ (x = fa ∨ x = fb) := by
  induction b with
  | nil => exact fun s => ⟨s, rfl, by simp⟩
  | cons hd tl ih =>
    intro s
    have hpp := processPair_nonInteracting (h hd (List.mem_cons_self hd tl)) s
    obtain ⟨s2, hs2, hmem⟩ :=
      ih (fun fb hfb => h fb (List.mem_cons_of_mem hd hfb))
        (if hasCurve g fa hd then insertFace (insertFace s fa) hd else s)
    refine ⟨s2, ?_, ?_⟩
    · simp only [unionInner]
      rw [hpp]
      exact hs2
    · intro x
      rw [hmem x, mem_ite_insert]
      simp only [List.mem_cons]
      constructor
      · rintro ((hx | ⟨hc, hor⟩) | ⟨fb, hfb, hc, hor⟩)
        · exact Or.inl hx
        · exact Or.inr ⟨hd, Or.inl rfl, hc, hor⟩
        · exact Or.inr ⟨fb, Or.inr hfb, hc, hor⟩
      · rintro (hx | ⟨fb, (rfl | hfb), hc, hor⟩)
        · exact Or.inl (Or.inl hx)
        · exact Or.inl (Or.inr ⟨hc, hor⟩)
        · exact Or.inr ⟨fb, hfb, hc, hor⟩

theorem unionOuter_nonInteracting {g : Geometry} {a b : List Face}
    (h : ∀ fa ∈ a, ∀ fb ∈ b, nonInteractingB g fa fb = true) :
    ∀ s, ∃ s2, unionOuter g a b s = some s2 ∧
      ∀ x, x ∈ s2 ↔ x ∈ s ∨
        ∃ fa ∈ a, ∃ fb ∈ b, hasCurve g fa fb = true ∧ (x = fa ∨ x = fb) := by
  induction a with
  | nil => exact fun s => ⟨s, rfl, by simp⟩
  | cons hd tl ih =>
    intro s
    obtain ⟨s1, hs1, hmem1⟩ :=
      unionInner_nonInteracting (h hd (List.mem_cons_self hd tl)) s
    obtain ⟨s2, hs2, hmem2⟩ :=
      ih (fun fa hfa => h fa (List.mem_cons_of_mem hd hfa)) s1
    refine ⟨s2, ?_, ?_⟩
    · simp only [unionOuter]
      rw [hs1]
      exact hs2
    · intro x
      rw [hmem2 x, hmem1 x]
      simp only [List.mem_cons]
      constructor
      · rintro ((hx | ⟨fb, hfb, hc, hor⟩) | ⟨fa, hfa, fb, hfb, hc, hor⟩)
        · exact Or.inl hx
        · exact Or.inr ⟨hd, Or.inl rfl, fb, hfb, hc, hor⟩
        · exact Or.inr ⟨fa, Or.inr hfa, fb, hfb, hc, hor⟩
      · rintro (hx | ⟨fa, (rfl | hfa), fb, hfb, hc, hor⟩)
        · exact Or.inl (Or.inl hx)
        · exact Or.inl (Or.inr ⟨fb, hfb, hc, hor⟩)
        · exact Or.inr ⟨fa, hfa, fb, hfb, hc, hor⟩

/-- C1: for every face pair whose surfaces intersect in a curve, the union
decision (the loop body processPair) keeps only fa in the result face set
when the interval list of fa is non-empty and that of fb is empty, keeps
only fb in the symmetric case, and keeps both faces unmodified when both
interval lists are empty (union.rs lines 40 to 55). -/
theorem union_pair_decision (g : Geometry) (s : List Face) (fa fb : Face)
    (ca cb c : CurveId)
    (h : g.surface_surface fa.surface fb.surface = some (ca, cb, c)) :
    ((g.compute ca fa).is_empty = false → (g.compute cb fb).is_empty = true →
      processPair g s fa fb = some (insertFace s fa)) ∧
    ((g.compute ca fa).is_empty = true → (g.compute cb fb).is_empty = false →
      processPair g s fa fb = some (insertFace s fb)) ∧
    ((g.compute ca fa).is_empty = true → (g.compute cb fb).is_empty = true →
      processPair g s fa fb = some (insertFace (insertFace s fa) fb)) := by
  refine ⟨fun h1 h2 => ?_, fun h1 h2 => ?_, fun h1 h2 => ?_⟩ <;>
    simp only [processPair, h, h1, h2]

/-- Witness for C1: a concrete geometry and face pair in the keep-only-fa
case. -/
theorem union_pair_decision_witness :
    (gOneSided.surface_surface (Face.mk 0 0).surface (Face.mk 0 1).surface =
      some (0, 0, 0) ∧
      (gOneSided.compute 0 ⟨0, 0⟩).is_empty = false ∧
      (gOneSided.compute 0 ⟨0, 1⟩).is_empty = true) ∧
    processPair gOneSided [] ⟨0, 0⟩ ⟨0, 1⟩ = some (insertFace [] ⟨0, 0⟩) :=
  ⟨⟨rfl, rfl, rfl⟩,
    (union_pair_decision gOneSided [] ⟨0, 0⟩ ⟨0, 1⟩ 0 0 0 rfl).1 rfl rfl⟩

/-- C2 counterexample: union is not total. With symmetric-crossing
geometry, the todo panic (modelled as none) is reached, so no solid is
returned for this well-formed input pair. -/
theorem union_not_total :
    union gCross [⟨0, 0⟩] [⟨0, 1⟩] = none := rfl

/-- C2 amended: union never mutates its inputs (the embedding is a pure
function of them) and returns a new solid whenever no face pair of the two
solids falls into the unimplemented symmetric-crossing case. -/
theorem union_total_of_no_crossing (g : Geometry) (a b : List Face)
    (h : ∀ fa ∈ a, ∀ fb ∈ b, crossingB g fa fb = false) :
    ∃ s, union g a b = some s := by
  unfold union
  exact unionOuter_total h []

/-- Witness for the amended C2: totality on a concrete crossing-free input. -/
theorem union_total_of_no_crossing_witness :
    (∀ fa ∈ [Face.mk 0 0], ∀ fb ∈ [Face.mk 1 0],
      crossingB gEmpty fa fb = false) ∧
    ∃ s, union gEmpty [Face.mk 0 0] [Face.mk 1 0] = some s :=
  ⟨by decide, union_total_of_no_crossing gEmpty _ _ (by decide)⟩

/-- C3: when some face pair has both interval lists non-empty against the
intersection curve, union reaches the explicit todo panic (modelled as
none): a loud unsupported-operation failure rather than a silent
approximation (union.rs lines 51 to 54). -/
theorem union_symmetric_crossing_loud (g : Geometry) (a b : List Face)
    (fa fb : Face) (ca cb c : CurveId) (hfa : fa ∈ a) (hfb : fb ∈ b)
    (h : g.surface_surface fa.surface fb.surface = some (ca, cb, c))
    (hia : (g.compute ca fa).is_empty = false)
    (hib : (g.compute cb fb).is_empty = false) :
    union g a b = none := by
  unfold union
  exact unionOuter_none fa hfa
    (unionInner_none fb hfb (processPair_crossing h hia hib)) []

/-- Witness for C3 at a concrete symmetric-crossing input. -/
theorem union_symmetric_crossing_loud_witness :
    ((gCross.compute 0 ⟨0, 0⟩).is_empty = false ∧
      (gCross.compute 0 ⟨0, 1⟩).is_empty = false) ∧
    union gCross [⟨0, 0⟩] [⟨0, 1⟩] = none :=
  ⟨⟨rfl, rfl⟩,
    union_symmetric_crossing_loud gCross _ _ ⟨0, 0⟩ ⟨0, 1⟩ 0 0 0
      (by simp) (by simp) rfl rfl rfl⟩

/-- C4 counterexample: two geometrically disjoint solids on which union
does not return the union of the two face sets: the surfaces of the top
face of the first cube and of a tilted face of the distant rotated cube
intersect in a line crossing the interiors of both bounded faces (see
gDisjointRotated), so both interval lists are non-empty for that pair and
union reaches the unimplemented symmetric-crossing panic (union.rs line
53, modelled as none) instead of producing any face set. Disjointness of
the solids does not prevent their infinite face surfaces from crossing
bounded faces. -/
theorem union_disjoint_not_exact :
    union gDisjointRotated cubeA cubeB = none := by decide

/-- C4 amended: union contains exactly the union of the two face sets when
additionally every face pair is non-interacting, that is, its surfaces
share no intersection curve or the curve misses both bounded faces (empty
interval lists on both sides); disjointness of the solids alone does not
ensure this, as the counterexample shows. Well-formedness of closed solids
is modelled from the spec as the requirement that every face of one solid
has some non-parallel partner face in the other, since the bounding
surfaces of a closed volume cannot all be parallel to a given plane. -/
theorem union_disjoint_exact (g : Geometry) (a b : List Face)
    (hdisj : ∀ fa ∈ a, ∀ fb ∈ b, nonInteractingB g fa fb = true)
    (hca : ∀ fa ∈ a, ∃ fb ∈ b, hasCurve g fa fb = true)
    (hcb : ∀ fb ∈ b, ∃ fa ∈ a, hasCurve g fa fb = true) :
    ∃ s, union g a b = some s ∧ ∀ f, f ∈ s ↔ f ∈ a ∨ f ∈ b := by
  obtain ⟨s, hs, hmem⟩ := unionOuter_nonInteracting hdisj []
  refine ⟨s, hs, fun f => ?_⟩
  rw [hmem f]
  simp only [List.not_mem_nil, false_or]
  constructor
  · rintro ⟨fa, hfa, fb, hfb, _, (rfl | rfl)⟩
    · exact Or.inl hfa
    · exact Or.inr hfb
  · rintro (hf | hf)
    · obtain ⟨fb, hfb, hc⟩ := hca f hf
      exact ⟨f, hf, fb, hfb, hc, Or.inl rfl⟩
    · obtain ⟨fa, hfa, hc⟩ := hcb f hf
      exact ⟨fa, hfa, f, hf, hc, Or.inr rfl⟩

/-- Witness for C4 on two concrete disjoint two-face solids. -/
theorem union_disjoint_exact_witness :
    (∀ fa ∈ solidA, ∀ fb ∈ solidB, nonInteractingB gMixed fa fb = true) ∧
    ∃ s, union gMixed solidA solidB = some s ∧
      ∀ f, f ∈ s ↔ f ∈ solidA ∨ f ∈ solidB :=
  ⟨by decide, union_disjoint_exact gMixed solidA solidB
    (by decide) (by decide) (by decide)⟩

end BoolUnion

namespace ObjGraph

theorem iterWith_cons {acc : List Object} {hd : Object} {tl : List Object} :
    iterWith acc (hd :: tl) =
      iterWith (if hd ∈ acc then acc else acc ++ [hd]) tl := rfl

theorem mem_iterWith {l : List Object} :
    ∀ {acc x}, x ∈ iterWith acc l ↔ x ∈ acc ∨ x ∈ l := by
  induction l with
  | nil => simp [iterWith]
  | cons hd tl ih =>
    intro acc x
    rw [iterWith_cons, ih]
    simp only [List.mem_cons]
    split_ifs with h
    · constructor
      · rintro (hx | hx)
        · exact Or.inl hx
        · exact Or.inr (Or.inr hx)
      · rintro (hx | rfl | hx)
        · exact Or.inl hx
        · exact Or.inl h
        · exact Or.inr hx
    · simp only [List.mem_append, List.mem_singleton]
      tauto

theorem iterWith_nodup {l : List Object} :
    ∀ {acc}, acc.Nodup → (iterWith acc l).Nodup := by
  induction l with
  | nil => exact fun h => h
  | cons hd tl ih =>
    intro acc h
    rw [iterWith_cons]
    apply ih
    split_ifs with hmem
    · exact h
    · exact h.append (List.nodup_singleton hd)
        (List.disjoint_singleton.mpr hmem)

theorem mem_foldl_iterWith {ls : List (List Object)} :
    ∀ {acc x}, x ∈ ls.foldl iterWith acc ↔ x ∈ acc ∨ ∃ l ∈ ls, x ∈ l := by
  induction ls with
  | nil => simp
  | cons hd tl ih =>
    intro acc x
    rw [List.foldl_cons, ih, mem_iterWith]
    constructor
    · rintro ((hx | hx) | ⟨l, hl, hx⟩)
      · exact Or.inl hx
      · exact Or.inr ⟨hd, List.mem_cons_self hd tl, hx⟩
      · exact Or.inr ⟨l, List.mem_cons_of_mem hd hl, hx⟩
    · rintro (hx | ⟨l, hl, hx⟩)
      · exact Or.inl (Or.inl hx)
      · rcases List.mem_cons.mp hl with rfl | hl
        · exact Or.inl (Or.inr hx)
        · exact Or.inr ⟨l, hl, hx⟩

theorem foldl_iterWith_nodup {ls : List (List Object)} :
    ∀ {acc : List Object}, acc.Nodup → (ls.foldl iterWith acc).Nodup := by
  induction ls with
  | nil => exact fun h => h
  | cons hd tl ih => exact fun h => ih (iterWith_nodup h)

theorem mem_iterConcat {ls : List (List Object)} {x : Object} :
    x ∈ iterConcat ls ↔ ∃ l ∈ ls, x ∈ l := by
  rw [iterConcat, mem_foldl_iterWith]
  simp

theorem iterConcat_nodup (ls : List (List Object)) : (iterConcat ls).Nodup :=
  foldl_iterWith_nodup List.nodup_nil

theorem reachCurve_mem {c : Curve3} {x : Object} (h : x ∈ reachCurve c) :
    x = .curve c := by
  simpa [reachCurve] using h

theorem reachGlobalVertex_mem {v : GlobalVertex} {x : Object}
    (h : x ∈ reachGlobalVertex v) : x = .globalVertex v := by
  simpa [reachGlobalVertex] using h

theorem reachSurface_mem {s : Surface} {x : Object}
    (h : x ∈ reachSurface s) : x = .surface s := by
  simpa [reachSurface] using h

theorem reachVertex_mem {v : Vertex} {x : Object} (h : x ∈ reachVertex v) :
    x = .vertex v ∨ x.kind = .globalVertex := by
  rcases List.mem_cons.mp h with rfl | h2
  · exact Or.inl rfl
  · rw [reachGlobalVertex_mem h2]
    exact Or.inr rfl

theorem reachEdge_mem {e : Edge} {x : Object} (h : x ∈ reachEdge e) :
    x = .edge e ∨ x.kind = .curve ∨ x.kind = .vertex ∨
      x.kind = .globalVertex := by
  rcases List.mem_cons.mp h with rfl | h2
  · exact Or.inl rfl
  · rcases List.mem_append.mp h2 with h3 | h3
    · rw [reachCurve_mem h3]
      exact Or.inr (Or.inl rfl)
    · obtain ⟨l, hl, hx⟩ := List.mem_flatten.mp h3
      obtain ⟨v, _, rfl⟩ := List.mem_map.mp hl
      rcases reachVertex_mem hx with rfl | hk
      · exact Or.inr (Or.inr (Or.inl rfl))
      · exact Or.inr (Or.inr (Or.inr hk))

theorem reachCycle_mem {c : Cycle} {x : Object} (h : x ∈ reachCycle c) :
    x = .cycle c ∨ x.kind = .edge ∨ x.kind = .curve ∨ x.kind = .vertex ∨
      x.kind = .globalVertex := by
  rcases List.mem_cons.mp h with rfl | h2
  · exact Or.inl rfl
  · obtain ⟨l, hl, hx⟩ := List.mem_flatten.mp h2
    obtain ⟨e, _, rfl⟩ := List.mem_map.mp hl
    rcases reachEdge_mem hx with rfl | hk
    · exact Or.inr (Or.inl rfl)
    · exact Or.inr (Or.inr hk)

theorem reachFace_mem {f : Face} {x : Object} (h : x ∈ reachFace f) :
    x = .face f ∨ x.kind = .surface ∨ x.kind = .cycle ∨ x.kind = .edge ∨
      x.kind = .curve ∨ x.kind = .vertex ∨ x.kind = .globalVertex := by
  rcases List.mem_cons.mp h with rfl | h2
  · exact Or.inl rfl
  · cases f with
    | triangles ts => cases h2
    | brep s exterior interiors color =>
      rcases List.mem_append.mp h2 with h3 | h3
      · rw [reachSurface_mem h3]
        exact Or.inr (Or.inl rfl)
      · obtain ⟨l, hl, hx⟩ := List.mem_flatten.mp h3
        obtain ⟨c, _, rfl⟩ := List.mem_map.mp hl
        rcases reachCycle_mem hx with rfl | hk
        · exact Or.inr (Or.inr (Or.inl rfl))
        · exact Or.inr (Or.inr (Or.inr hk))

theorem reachSketch_mem {s : Sketch} {x : Object} (h : x ∈ reachSketch s) :
    x = .sketch s ∨ x.kind = .face ∨ x.kind = .surface ∨ x.kind = .cycle ∨
      x.kind = .edge ∨ x.kind = .curve ∨ x.kind = .vertex ∨
      x.kind = .globalVertex := by
  rcases List.mem_cons.mp h with rfl | h2
  · exact Or.inl rfl
  · obtain ⟨l, hl, hx⟩ := List.mem_flatten.mp h2
    obtain ⟨f, _, rfl⟩ := List.mem_map.mp hl
    rcases reachFace_mem hx with rfl | hk
    · exact Or.inr (Or.inl rfl)
    · exact Or.inr (Or.inr hk)

theorem reachSolid_mem {s : Solid} {x : Object} (h : x ∈ reachSolid s) :
    x = .solid s ∨ x.kind = .face ∨ x.kind = .surface ∨ x.kind = .cycle ∨
      x.kind = .edge ∨ x.kind = .curve ∨ x.kind = .vertex ∨
      x.kind = .globalVertex := by
  rcases List.mem_cons.mp h with rfl | h2
  · exact Or.inl rfl
  · obtain ⟨l, hl, hx⟩ := List.mem_flatten.mp h2
    obtain ⟨f, _, rfl⟩ := List.mem_map.mp hl
    rcases reachFace_mem hx with rfl | hk
    · exact Or.inr (Or.inl rfl)
    · exact Or.inr (Or.inr hk)

theorem iterCurve_spec (k : Kind) (c : Curve3) (x : Object) :
    (iterCurve k c).Nodup ∧
      (x ∈ iterCurve k c ↔ x.kind = k ∧ x ∈ reachCurve c) := by
  by_cases hk : k = .curve
  · subst hk
    rw [show iterCurve Kind.curve c = [Object.curve c] from rfl]
    refine ⟨List.nodup_singleton _, ?_⟩
    simp only [List.mem_singleton]
    constructor
    · rintro rfl
      exact ⟨rfl, List.mem_singleton_self _⟩
    · rintro ⟨hkx, hx⟩
      exact reachCurve_mem hx
  · refine ⟨?_, ?_⟩
    · simp only [iterCurve, if_neg hk]
      exact iterConcat_nodup _
    · simp only [iterCurve, if_neg hk, iterConcat, List.foldl_nil,
        List.not_mem_nil, false_iff]
      rintro ⟨hkx, hx⟩
      rw [reachCurve_mem hx] at hkx
      exact hk hkx.symm

theorem iterGlobalVertex_spec (k : Kind) (v : GlobalVertex) (x : Object) :
    (iterGlobalVertex k v).Nodup ∧
      (x ∈ iterGlobalVertex k v ↔ x.kind = k ∧ x ∈ reachGlobalVertex v) := by
  by_cases hk : k = .globalVertex
  · subst hk
    rw [show iterGlobalVertex Kind.globalVertex v = [Object.globalVertex v]
      from rfl]
    refine ⟨List.nodup_singleton _, ?_⟩
    simp only [List.mem_singleton]
    constructor
    · rintro rfl
      exact ⟨rfl, List.mem_singleton_self _⟩
    · rintro ⟨hkx, hx⟩
      exact reachGlobalVertex_mem hx
  · refine ⟨?_, ?_⟩
    · simp only [iterGlobalVertex, if_neg hk]
      exact iterConcat_nodup _
    · simp only [iterGlobalVertex, if_neg hk, iterConcat, List.foldl_nil,
        List.not_mem_nil, false_iff]
      rintro ⟨hkx, hx⟩
      rw [reachGlobalVertex_mem hx] at hkx
      exact hk hkx.symm

theorem iterSurface_spec (k : Kind) (s : Surface) (x : Object) :
    (iterSurface k s).Nodup ∧
      (x ∈ iterSurface k s ↔ x.kind = k ∧ x ∈ reachSurface s) := by
  by_cases hk : k = .surface
  · subst hk
    rw [show iterSurface Kind.surface s = [Object.surface s] from rfl]
    refine ⟨List.nodup_singleton _, ?_⟩
    simp only [List.mem_singleton]
    constructor
    · rintro rfl
      exact ⟨rfl, List.mem_singleton_self _⟩
    · rintro ⟨hkx, hx⟩
      exact reachSurface_mem hx
  · refine ⟨?_, ?_⟩
    · simp only [iterSurface, if_neg hk]
      exact iterConcat_nodup _
    · simp only [iterSurface, if_neg hk, iterConcat, List.foldl_nil,
        List.not_mem_nil, false_iff]
      rintro ⟨hkx, hx⟩
      rw [reachSurface_mem hx] at hkx
      exact hk hkx.symm

theorem iterVertex_spec (k : Kind) (v : Vertex) (x : Object) :
    (iterVertex k v).Nodup ∧
      (x ∈ iterVertex k v ↔ x.kind = k ∧ x ∈ reachVertex v) := by
  by_cases hk : k = .vertex
  · subst hk
    rw [show iterVertex Kind.vertex v = [Object.vertex v] from rfl]
    refine ⟨List.nodup_singleton _, ?_⟩
    simp only [List.mem_singleton]
    constructor
    · rintro rfl
      exact ⟨rfl, List.mem_cons_self _ _⟩
    · rintro ⟨hkx, hx⟩
      rcases reachVertex_mem hx with rfl | hglobal
      · rfl
      · exact absurd (hkx.symm.trans hglobal) (by decide)
  · refine ⟨?_, ?_⟩
    · simp only [iterVertex, if_neg hk]
      exact iterConcat_nodup _
    · simp only [iterVertex, if_neg hk, mem_iterConcat, List.mem_singleton]
      constructor
      · rintro ⟨l, rfl, hx⟩
        rw [(iterGlobalVertex_spec k v.global x).2] at hx
        exact ⟨hx.1, List.mem_cons_of_mem _ hx.2⟩
      · rintro ⟨hkx, hx⟩
        rcases List.mem_cons.mp hx with rfl | h2
        · exact absurd hkx.symm hk
        · exact ⟨iterGlobalVertex k v.global, rfl,
            (iterGlobalVertex_spec k v.global x).2.mpr ⟨hkx, h2⟩⟩

theorem iterEdge_spec (k : Kind) (e : Edge) (x : Object) :
    (iterEdge k e).Nodup ∧
      (x ∈ iterEdge k e ↔ x.kind = k ∧ x ∈ reachEdge e) := by
  by_cases hk : k = .edge
  · subst hk
    rw [show iterEdge Kind.edge e = [Object.edge e] from rfl]
    refine ⟨List.nodup_singleton _, ?_⟩
    simp only [List.mem_singleton]
    constructor
    · rintro rfl
      exact ⟨rfl, List.mem_cons_self _ _⟩
    · rintro ⟨hkx, hx⟩
      rcases reachEdge_mem hx with rfl | h | h | h
      · rfl
      · exact absurd (hkx.symm.trans h) (by decide)
      · exact absurd (hkx.symm.trans h) (by decide)
      · exact absurd (hkx.symm.trans h) (by decide)
  · refine ⟨?_, ?_⟩
    · simp only [iterEdge, if_neg hk]
      exact iterConcat_nodup _
    · simp only [iterEdge, if_neg hk, mem_iterConcat, List.mem_cons,
        List.mem_map]
      constructor
      · rintro ⟨l, hl, hx⟩
        rcases hl with rfl | ⟨v, hv, rfl⟩
        · rw [(iterCurve_spec k e.curve.global x).2] at hx
          exact ⟨hx.1, List.mem_cons_of_mem _
            (List.mem_append.mpr (Or.inl hx.2))⟩
        · rw [(iterVertex_spec k v x).2] at hx
          refine ⟨hx.1, List.mem_cons_of_mem _
            (List.mem_append.mpr (Or.inr ?_))⟩
          exact List.mem_flatten.mpr
            ⟨reachVertex v, List.mem_map.mpr ⟨v, hv, rfl⟩, hx.2⟩
      · rintro ⟨hkx, hx⟩
        rcases List.mem_cons.mp hx with rfl | h2
        · exact absurd hkx.symm hk
        · rcases List.mem_append.mp h2 with h3 | h3
          · exact ⟨iterCurve k e.curve.global, Or.inl rfl,
              (iterCurve_spec k e.curve.global x).2.mpr ⟨hkx, h3⟩⟩
          · obtain ⟨l, hl, hx3⟩ := List.mem_flatten.mp h3
            obtain ⟨v, hv, rfl⟩ := List.mem_map.mp hl
            exact ⟨iterVertex k v, Or.inr ⟨v, hv, rfl⟩,
              (iterVertex_spec k v x).2.mpr ⟨hkx, hx3⟩⟩

theorem iterCycle_spec (k : Kind) (c : Cycle) (x : Object) :
    (iterCycle k c).Nodup ∧
      (x ∈ iterCycle k c ↔ x.kind = k ∧ x ∈ reachCycle c) := by
  by_cases hk : k = .cycle
  · subst hk
    rw [show iterCycle Kind.cycle c = [Object.cycle c] from rfl]
    refine ⟨List.nodup_singleton _, ?_⟩
    simp only [List.mem_singleton]
    constructor
    · rintro rfl
      exact ⟨rfl, List.mem_cons_self _ _⟩
    · rintro ⟨hkx, hx⟩
      rcases reachCycle_mem hx with rfl | h | h | h | h
      · rfl
      · exact absurd (hkx.symm.trans h) (by decide)
      · exact absurd (hkx.symm.trans h) (by decide)
      · exact absurd (hkx.symm.trans h) (by decide)
      · exact absurd (hkx.symm.trans h) (by decide)
  · refine ⟨?_, ?_⟩
    · simp only [iterCycle, if_neg hk]
      exact iterConcat_nodup _
    · simp only [iterCycle, if_neg hk, mem_iterConcat, List.mem_map]
      constructor
      · rintro ⟨l, ⟨e, he, rfl⟩, hx⟩
        rw [(iterEdge_spec k e x).2] at hx
        refine ⟨hx.1, List.mem_cons_of_mem _ ?_⟩
        exact List.mem_flatten.mpr
          ⟨reachEdge e, List.mem_map.mpr ⟨e, he, rfl⟩, hx.2⟩
      · rintro ⟨hkx, hx⟩
        rcases List.mem_cons.mp hx with rfl | h2
        · exact absurd hkx.symm hk
        · obtain ⟨l, hl, hx3⟩ := List.mem_flatten.mp h2
          obtain ⟨e, he, rfl⟩ := List.mem_map.mp hl
          exact ⟨iterEdge k e, ⟨e, he, rfl⟩,
            (iterEdge_spec k e x).2.mpr ⟨hkx, hx3⟩⟩

theorem iterFace_spec (k : Kind) (f : Face) (x : Object) :
    (iterFace k f).Nodup ∧
      (x ∈ iterFace k f ↔ x.kind = k ∧ x ∈ reachFace f) := by
  by_cases hk : k = .face
  · subst hk
    rw [show iterFace Kind.face f = [Object.face f] from rfl]
    refine ⟨List.nodup_singleton _, ?_⟩
    simp only [List.mem_singleton]
    constructor
    · rintro rfl
      exact ⟨rfl, List.mem_cons_self _ _⟩
    · rintro ⟨hkx, hx⟩
      rcases reachFace_mem hx with rfl | h | h | h | h | h | h
      · rfl
      · exact absurd (hkx.symm.trans h) (by decide)
      · exact absurd (hkx.symm.trans h) (by decide)
      · exact absurd (hkx.symm.trans h) (by decide)
      · exact absurd (hkx.symm.trans h) (by decide)
      · exact absurd (hkx.symm.trans h) (by decide)
      · exact absurd (hkx.symm.trans h) (by decide)
  · cases f with
    | triangles ts =>
      refine ⟨?_, ?_⟩
      · simp only [iterFace, if_neg hk]
        exact iterConcat_nodup _
      · simp only [iterFace, if_neg hk, iterConcat, List.foldl_nil,
          List.not_mem_nil, false_iff]
        rintro ⟨hkx, hx⟩
        rcases List.mem_cons.mp hx with rfl | h2
        · exact hk hkx.symm
        · cases h2
    | brep s exterior interiors color =>
      refine ⟨?_, ?_⟩
      · simp only [iterFace, if_neg hk]
        exact iterConcat_nodup _
      · simp only [iterFace, if_neg hk, mem_iterConcat, List.mem_cons,
          List.mem_map]
        constructor
        · rintro ⟨l, hl, hx⟩
          rcases hl with rfl | ⟨c, hc, rfl⟩
          · rw [(iterSurface_spec k s x).2] at hx
            exact ⟨hx.1, List.mem_cons_of_mem _
              (List.mem_append.mpr (Or.inl hx.2))⟩
          · rw [(iterCycle_spec k c x).2] at hx
            refine ⟨hx.1, List.mem_cons_of_mem _
              (List.mem_append.mpr (Or.inr ?_))⟩
            exact List.mem_flatten.mpr
              ⟨reachCycle c,
                List.mem_map.mpr ⟨c, List.mem_cons.mpr hc, rfl⟩, hx.2⟩
        · rintro ⟨hkx, hx⟩
          rcases List.mem_cons.mp hx with rfl | h2
          · exact absurd hkx.symm hk
          · rcases List.mem_append.mp h2 with h3 | h3
            · exact ⟨iterSurface k s, Or.inl rfl,
                (iterSurface_spec k s x).2.mpr ⟨hkx, h3⟩⟩
            · obtain ⟨l, hl, hx3⟩ := List.mem_flatten.mp h3
              obtain ⟨c, hc, rfl⟩ := List.mem_map.mp hl
              exact ⟨iterCycle k c, Or.inr ⟨c, List.mem_cons.mp hc, rfl⟩,
                (iterCycle_spec k c x).2.mpr ⟨hkx, hx3⟩⟩

theorem iterSketch_spec (k : Kind) (s : Sketch) (x : Object) :
    (iterSketch k s).Nodup ∧
      (x ∈ iterSketch k s ↔ x.kind = k ∧ x ∈ reachSketch s) := by
  by_cases hk : k = .sketch
  · subst hk
    rw [show iterSketch Kind.sketch s = [Object.sketch s] from rfl]
    refine ⟨List.nodup_singleton _, ?_⟩
    simp only [List.mem_singleton]
    constructor
    · rintro rfl
      exact ⟨rfl, List.mem_cons_self _ _⟩
    · rintro ⟨hkx, hx⟩
      rcases reachSketch_mem hx with rfl | h | h | h | h | h | h | h
      · rfl
      · exact absurd (hkx.symm.trans h) (by decide)
      · exact absurd (hkx.symm.trans h) (by decide)
      · exact absurd (hkx.symm.trans h) (by decide)
      · exact absurd (hkx.symm.trans h) (by decide)
      · exact absurd (hkx.symm.trans h) (by decide)
      · exact absurd (hkx.symm.trans h) (by decide)
      · exact absurd (hkx.symm.trans h) (by decide)
  · refine ⟨?_, ?_⟩
    · simp only [iterSketch, if_neg hk]
      exact iterConcat_nodup _
    · simp only [iterSketch, if_neg hk, mem_iterConcat, List.mem_map]
      constructor
      · rintro ⟨l, ⟨f, hf, rfl⟩, hx⟩
        rw [(iterFace_spec k f x).2] at hx
        refine ⟨hx.1, List.mem_cons_of_mem _ ?_⟩
        exact List.mem_flatten.mpr
          ⟨reachFace f, List.mem_map.mpr ⟨f, hf, rfl⟩, hx.2⟩
      · rintro ⟨hkx, hx⟩
        rcases List.mem_cons.mp hx with rfl | h2
        · exact absurd hkx.symm hk
        · obtain ⟨l, hl, hx3⟩ := List.mem_flatten.mp h2
          obtain ⟨f, hf, rfl⟩ := List.mem_map.mp hl
          exact ⟨iterFace k f, ⟨f, hf, rfl⟩,
            (iterFace_spec k f x).2.mpr ⟨hkx, hx3⟩⟩

theorem iterSolid_spec (k : Kind) (s : Solid) (x : Object) :
    (iterSolid k s).Nodup ∧
      (x ∈ iterSolid k s ↔ x.kind = k ∧ x ∈ reachSolid s) := by
  by_cases hk : k = .solid
  · subst hk
    rw [show iterSolid Kind.solid s = [Object.solid s] from rfl]
    refine ⟨List.nodup_singleton _, ?_⟩
    simp only [List.mem_singleton]
    constructor
    · rintro rfl
      exact ⟨rfl, List.mem_cons_self _ _⟩
    · rintro ⟨hkx, hx⟩
      rcases reachSolid_mem hx with rfl | h | h | h | h | h | h | h
      · rfl
      · exact absurd (hkx.symm.trans h) (by decide)
      · exact absurd (hkx.symm.trans h) (by decide)
      · exact absurd (hkx.symm.trans h) (by decide)
      · exact absurd (hkx.symm.trans h) (by decide)
      · exact absurd (hkx.symm.trans h) (by decide)
      · exact absurd (hkx.symm.trans h) (by decide)
      · exact absurd (hkx.symm.trans h) (by decide)
  · refine ⟨?_, ?_⟩
    · simp only [iterSolid, if_neg hk]
      exact iterConcat_nodup _
    · simp only [iterSolid, if_neg hk, mem_iterConcat, List.mem_map]
      constructor
      · rintro ⟨l, ⟨f, hf, rfl⟩, hx⟩
        rw [(iterFace_spec k f x).2] at hx
        refine ⟨hx.1, List.mem_cons_of_mem _ ?_⟩
        exact List.mem_flatten.mpr
          ⟨reachFace f, List.mem_map.mpr ⟨f, hf, rfl⟩, hx.2⟩
      · rintro ⟨hkx, hx⟩
        rcases List.mem_cons.mp hx with rfl | h2
        · exact absurd hkx.symm hk
        · obtain ⟨l, hl, hx3⟩ := List.mem_flatten.mp h2
          obtain ⟨f, hf, rfl⟩ := List.mem_map.mp hl
          exact ⟨iterFace k f, ⟨f, hf, rfl⟩,
            (iterFace_spec k f x).2.mpr ⟨hkx, hx3⟩⟩

/-- C6: for every object-graph node and every requested object kind, the
kind iterator yields each distinct reachable object of that kind exactly
once (the sequence is duplicate-free and its members are exactly the
reachable objects of that kind, deduplicated by structural equality), the
starting node itself included when it matches the requested kind. -/
theorem iter_exactly_once (k : Kind) (o x : Object) :
    (o.iter k).Nodup ∧ (x ∈ o.iter k ↔ x.kind = k ∧ x ∈ o.reach) := by
  cases o with
  | curve c => exact iterCurve_spec k c x
  | cycle c => exact iterCycle_spec k c x
  | edge e => exact iterEdge_spec k e x
  | face f => exact iterFace_spec k f x
  | globalVertex v => exact iterGlobalVertex_spec k v x
  | sketch s => exact iterSketch_spec k s x
  | solid s => exact iterSolid_spec k s x
  | surface s => exact iterSurface_spec k s x
  | vertex v => exact iterVertex_spec k v x

set_option maxRecDepth 400000 in
/-- C8: traversing the unit cube solid yields exactly 6 faces, 6 surfaces,
6 cycles, 20 edges, 8 global vertices, 16 local vertices and 18 curves. -/
theorem cube_traversal_counts :
    ((Object.solid (cube_from_edge_length 1)).iter .face).length = 6 ∧
    ((Object.solid (cube_from_edge_length 1)).iter .surface).length = 6 ∧
    ((Object.solid (cube_from_edge_length 1)).iter .cycle).length = 6 ∧
    ((Object.solid (cube_from_edge_length 1)).iter .edge).length = 20 ∧
    ((Object.solid (cube_from_edge_length 1)).iter .globalVertex).length = 8 ∧
    ((Object.solid (cube_from_edge_length 1)).iter .vertex).length = 16 ∧
    ((Object.solid (cube_from_edge_length 1)).iter .curve).length = 18 := by
  decide

/-- Witness for C6 at a concrete node and kind. -/
theorem iter_exactly_once_witness :
    ((Object.curve ⟨(0, 0, 0), (1, 0, 0)⟩).iter .curve).Nodup ∧
    (Object.curve ⟨(0, 0, 0), (1, 0, 0)⟩ ∈
        (Object.curve ⟨(0, 0, 0), (1, 0, 0)⟩).iter .curve ↔
      (Object.curve ⟨(0, 0, 0), (1, 0, 0)⟩).kind = .curve ∧
        Object.curve ⟨(0, 0, 0), (1, 0, 0)⟩ ∈
          (Object.curve ⟨(0, 0, 0), (1, 0, 0)⟩).reach) :=
  iter_exactly_once .curve (Object.curve ⟨(0, 0, 0), (1, 0, 0)⟩)
    (Object.curve ⟨(0, 0, 0), (1, 0, 0)⟩)

end ObjGraph

namespace Tria

/-- C7: for a B-rep face triangulated by the driver, no triangle accepted
into the output contains a point strictly inside one of the declared
interior (hole) boundaries, provided the containment filter meets its
section 4.4 contract. -/
theorem hole_exclusion (point_to_surface_coords : P3 → LP2)
    (delaunay : List LP2 → List LTri)
    (contains_triangle : List P2 → List (List P2) → Tri2 → Bool)
    (approx : FaceApprox) (hole : List P2) (p : P2) (t : LTri)
    (hc : ∀ tri,
      contains_triangle (faceExterior point_to_surface_coords approx)
          (faceInteriors point_to_surface_coords approx) tri = true →
        containsTriangleSpec (faceExterior point_to_surface_coords approx)
          (faceInteriors point_to_surface_coords approx) tri)
    (hhole : hole ∈ faceInteriors point_to_surface_coords approx)
    (hp : insidePolygon p hole = true)
    (ht : t ∈ triangulateFace point_to_surface_coords delaunay
      contains_triangle approx) :
    ¬ triContains (LTri.locals t) p := by
  intro hcontains
  have hmem := List.mem_filter.mp ht
  have hspec := hc (LTri.locals t) hmem.2
  have hfalse := hspec.2 hole hhole p hcontains
  rw [hfalse] at hp
  exact absurd hp (by decide)

theorem triContains_t0 {q : P2} (h : triContains t0 q) :
    0 < q.1 ∧ 0 < q.2 ∧ q.1 + q.2 < 1 := by
  rcases h with ⟨h1, h2, h3⟩ | ⟨h1, h2, h3⟩ <;>
    (simp only [t0, cross2] at h1 h2 h3; ring_nf at h1 h2 h3)
  · refine ⟨by linarith, by linarith, by linarith⟩
  · exfalso
    linarith

theorem inside_ext0 {q : P2} (h1 : 0 < q.1) (h2 : 0 < q.2)
    (h3 : q.1 + q.2 < 1) : insidePolygon q ext0 = true := by
  have e1 : raycastHit q ((0, 0), (4, 0)) = false := by
    simp [raycastHit]
  have e2 : raycastHit q ((4, 0), (4, 4)) = true := by
    have ha : ¬(q.2 < (0 : ℚ)) := by linarith
    have hb : q.2 < (4 : ℚ) := by linarith
    have hcc : q.1 < (4 : ℚ) := by linarith
    simp [raycastHit, ha, hb, hcc]
  have e3 : raycastHit q ((4, 4), (0, 4)) = false := by
    have ha : q.2 < (4 : ℚ) := by linarith
    simp [raycastHit, ha]
  have e4 : raycastHit q ((0, 4), (0, 0)) = false := by
    have ha : q.2 < (4 : ℚ) := by linarith
    have hb : ¬(q.2 < (0 : ℚ)) := by linarith
    have hcc : (0 : ℚ) ≤ q.1 := le_of_lt h1
    simp [raycastHit, ha, hb, hcc]
  rw [insidePolygon]
  rw [show edgesOf ext0 =
    [((0, 0), (4, 0)), ((4, 0), (4, 4)), ((4, 4), (0, 4)),
      ((0, 4), (0, 0))] from rfl]
  simp only [List.filter_cons, List.filter_nil, e1, e2, e3, e4]
  norm_num

theorem outside_hole0 {q : P2} (h1 : 0 < q.1) (h2 : 0 < q.2)
    (h3 : q.1 + q.2 < 1) : insidePolygon q hole0 = false := by
  have hq : q.2 < (2 : ℚ) := by linarith
  have hq3 : q.2 < (3 : ℚ) := by linarith
  have e1 : raycastHit q ((2, 2), (3, 2)) = false := by
    simp [raycastHit]
  have e2 : raycastHit q ((3, 2), (3, 3)) = false := by
    simp [raycastHit, hq, hq3]
  have e3 : raycastHit q ((3, 3), (2, 3)) = false := by
    simp [raycastHit]
  have e4 : raycastHit q ((2, 3), (2, 2)) = false := by
    simp [raycastHit, hq, hq3]
  rw [insidePolygon]
  rw [show edgesOf hole0 =
    [((2, 2), (3, 2)), ((3, 2), (3, 3)), ((3, 3), (2, 3)),
      ((2, 3), (2, 2))] from rfl]
  simp only [List.filter_cons, List.filter_nil, e1, e2, e3, e4]
  norm_num

theorem containsTriangleSpec_t0 : containsTriangleSpec ext0 [hole0] t0 := by
  constructor
  · intro q hq
    obtain ⟨h1, h2, h3⟩ := triContains_t0 hq
    exact inside_ext0 h1 h2 h3
  · intro hole hh q hq
    obtain ⟨h1, h2, h3⟩ := triContains_t0 hq
    rw [List.mem_singleton.mp hh]
    exact outside_hole0 h1 h2 h3

theorem insidePolygon_p0_hole0 : insidePolygon (5 / 2, 5 / 2) hole0 = true := by
  have e1 : raycastHit (5 / 2, 5 / 2) ((2, 2), (3, 2)) = false := by
    simp [raycastHit]
  have e2 : raycastHit (5 / 2, 5 / 2) ((3, 2), (3, 3)) = true := by
    norm_num [raycastHit]
  have e3 : raycastHit (5 / 2, 5 / 2) ((3, 3), (2, 3)) = false := by
    simp [raycastHit]
  have e4 : raycastHit (5 / 2, 5 / 2) ((2, 3), (2, 2)) = false := by
    norm_num [raycastHit]
  rw [insidePolygon]
  rw [show edgesOf hole0 =
    [((2, 2), (3, 2)), ((3, 2), (3, 3)), ((3, 3), (2, 3)),
      ((2, 3), (2, 2))] from rfl]
  simp only [List.filter_cons, List.filter_nil, e1, e2, e3, e4]
  norm_num

theorem t0L_accepted :
    t0L ∈ triangulateFace toSurf0 delaunay0 containsFn0 approx0 := by
  have hacc : containsFn0 (faceExterior toSurf0 approx0)
      (faceInteriors toSurf0 approx0) (LTri.locals t0L) = true := by
    simp [containsFn0, LTri.locals, t0L, t0]
  exact List.mem_filter.mpr ⟨List.mem_singleton_self _, hacc⟩

/-- Witness for C7 on a concrete face with a square hole: the hypotheses of
the hole-exclusion theorem hold for the concrete filter, Delaunay step,
approximation, hole and accepted triangle, and the point (5/2, 5/2) inside
the hole is contained in no accepted triangle. -/
theorem hole_exclusion_witness :
    (hole0 ∈ faceInteriors toSurf0 approx0 ∧
      insidePolygon (5 / 2, 5 / 2) hole0 = true ∧
      t0L ∈ triangulateFace toSurf0 delaunay0 containsFn0 approx0) ∧
    ¬ triContains (LTri.locals t0L) (5 / 2, 5 / 2) :=
  ⟨⟨List.mem_singleton_self hole0, insidePolygon_p0_hole0, t0L_accepted⟩,
    hole_exclusion toSurf0 delaunay0 containsFn0 approx0 hole0
      (5 / 2, 5 / 2) t0L
      (by
        intro tri htri
        have heq : tri = t0 := by simpa [containsFn0] using htri
        rw [heq]
        rw [show faceExterior toSurf0 approx0 = ext0 from rfl]
        rw [show faceInteriors toSurf0 approx0 = [hole0] from rfl]
        exact containsTriangleSpec_t0)
      (List.mem_singleton_self hole0) insidePolygon_p0_hole0 t0L_accepted⟩

end Tria

namespace Sdf

/-- C9: the signed distance of the difference of two shapes at a point is
the maximum of the signed distance of the first shape and the negation of
the signed distance of the second shape. -/
theorem difference_surface_max {A B : Type} (sa : A → P3 → ℚ)
    (sb : B → P3 → ℚ) (d : Difference A B) (point : P3) :
    differenceSurface sa sb d point = max (sa d.a point) (-(sb d.b point)) := by
  rw [show differenceSurface sa sb d point =
    (if sa d.a point > -(sb d.b point) then sa d.a point
      else -(sb d.b point)) from rfl]
  rcases le_or_lt (sa d.a point) (-(sb d.b point)) with h | h
  · rw [if_neg (not_lt.mpr h), max_eq_right h]
  · rw [if_pos h, max_eq_left h.le]

/-- Witness for C9 at a concrete pair of distance functions and point. -/
theorem difference_surface_max_witness :
    differenceSurface (fun (r : ℚ) p => p.1 - r) (fun (r : ℚ) p => p.1 - r)
        ⟨1, 1 / 2⟩ (0, 0, 0) =
      max ((fun (r : ℚ) p => p.1 - r) 1 (0, 0, 0))
        (-((fun (r : ℚ) p => p.1 - r) (1 / 2) (0, 0, 0))) :=
  difference_surface_max (fun r p => p.1 - r) (fun r p => p.1 - r)
    ⟨1, 1 / 2⟩ (0, 0, 0)

end Sdf

namespace Gfx

theorem findIndex_lt_length {V : Type} [DecidableEq V] {l : List V} {v : V} :
    ∀ {i : Nat}, findIndex l v = some i → i < l.length := by
  induction l with
  | nil => intro i h; cases h
  | cons hd tl ih =>
    intro i h
    simp only [findIndex] at h
    split_ifs at h with he
    · injection h with h
      subst h
      simp
    · cases hfi : findIndex tl v with
      | none => rw [hfi] at h; cases h
      | some j =>
        rw [hfi] at h
        injection h with h
        subst h
        exact Nat.succ_lt_succ (ih hfi)

theorem push_invariant {V : Type} [DecidableEq V] {m : MeshMaker V} {v : V}
    (h : ∀ i ∈ m.indices, i < m.vertices.length) :
    (∀ i ∈ (m.push v).indices, i < (m.push v).vertices.length) ∧
      (m.push v).indices.length = m.indices.length + 1 := by
  unfold MeshMaker.push
  cases hfi : findIndex m.vertices v with
  | some j =>
    refine ⟨?_, by simp⟩
    intro i hi
    rcases List.mem_append.mp hi with hi | hi
    · exact h i hi
    · rw [List.mem_singleton.mp hi]
      exact findIndex_lt_length hfi
  | none =>
    refine ⟨?_, by simp⟩
    intro i hi
    simp only [List.length_append, List.length_singleton]
    rcases List.mem_append.mp hi with hi | hi
    · exact Nat.lt_succ_of_lt (h i hi)
    · rw [List.mem_singleton.mp hi]
      exact Nat.lt_succ_self _

theorem foldl_push_invariant {V : Type} [DecidableEq V]
    (normalOf : V × V × V → V) (ts : List (V × V × V)) :
    ∀ m : MeshMaker (V × V), (∀ i ∈ m.indices, i < m.vertices.length) →
      (∀ i ∈ (ts.foldl
          (fun m t => (((m.push (t.1, normalOf t)).push
            (t.2.1, normalOf t)).push (t.2.2, normalOf t))) m).indices,
        i < (ts.foldl
          (fun m t => (((m.push (t.1, normalOf t)).push
            (t.2.1, normalOf t)).push (t.2.2, normalOf t))) m).vertices.length) ∧
      (ts.foldl
        (fun m t => (((m.push (t.1, normalOf t)).push
          (t.2.1, normalOf t)).push (t.2.2, normalOf t))) m).indices.length =
        m.indices.length + 3 * ts.length := by
  induction ts with
  | nil => exact fun m hm => ⟨hm, by simp⟩
  | cons hd tl ih =>
    intro m hm
    obtain ⟨ha1, ha2⟩ := push_invariant (v := (hd.1, normalOf hd)) hm
    obtain ⟨hb1, hb2⟩ := push_invariant (v := (hd.2.1, normalOf hd)) ha1
    obtain ⟨hc1, hc2⟩ := push_invariant (v := (hd.2.2, normalOf hd)) hb1
    obtain ⟨hres1, hres2⟩ := ih _ hc1
    refine ⟨hres1, ?_⟩
    rw [List.foldl_cons, hres2, hc2, hb2, ha2]
    simp only [List.length_cons]
    ring

/-- C10: the mesh built from a list of triangles has every index in its
index buffer strictly below the length of its vertex buffer, with exactly
three indices pushed per input triangle. -/
theorem mesh_from_triangles_indices_valid {V : Type} [DecidableEq V]
    (normalOf : V × V × V → V) (triangles : List (V × V × V)) :
    (∀ i ∈ (meshFromTriangles normalOf triangles).indices,
      i < (meshFromTriangles normalOf triangles).vertices.length) ∧
    (meshFromTriangles normalOf triangles).indices.length =
      3 * triangles.length := by
  have h := foldl_push_invariant normalOf triangles ⟨[], []⟩ (by simp)
  unfold meshFromTriangles meshMakerFromTriangles
  simp only [List.length_map]
  exact ⟨h.1, by simpa using h.2⟩

/-- Witness for C10 on one concrete triangle. -/
theorem mesh_from_triangles_indices_valid_witness :
    (∀ i ∈ (meshFromTriangles (fun _ => 0) [((0 : Nat), 1, 2)]).indices,
      i < (meshFromTriangles (fun _ => 0) [((0 : Nat), 1, 2)]).vertices.length) ∧
    (meshFromTriangles (fun _ => 0) [((0 : Nat), 1, 2)]).indices.length =
      3 * [((0 : Nat), 1, 2)].length :=
  mesh_from_triangles_indices_valid (fun _ => 0) [(0, 1, 2)]

end Gfx
